import Mathlib

/-!
Verification of the custom-shell command dispatch subsystem
(package `execext` and `taskfile/ast` of the task repository).

Go strings are modelled as lists of characters (`GoStr`).  Every
definition below is a direct translation of a function of the source;
the doc comment of each definition names the source function it embeds.
-/

namespace Spec2Proof

/-- Go strings modelled as lists of characters. -/
abbrev GoStr := List Char

/-- The single-quote character (ASCII 39). -/
def squote : Char := Char.ofNat 39

/-- The backslash character (ASCII 92). -/
def bslash : Char := Char.ofNat 92

/-- Go `strings.ReplaceAll` specialized to a single-character pattern:
with a one-character `old` the replacement is exactly the per-character
expansion of each occurrence of `old` into `new`. -/
def replaceAllChar (s : GoStr) (old : Char) (new : GoStr) : GoStr :=
  s.flatMap (fun c => if c = old then new else [c])

/-- `shellQuote` (exec.go lines 288-290): wraps `s` in single quotes and
replaces every embedded single quote with the four characters
close-quote, backslash, quote, open-quote. -/
def shellQuote (s : GoStr) : GoStr :=
  [squote] ++ replaceAllChar s squote [squote, bslash, squote, squote] ++ [squote]

/-- Go `strings.Join` with a single-space separator, as used by
`shellJoin` (exec.go lines 277-283). -/
def joinSpace : List GoStr → GoStr
  | [] => []
  | [x] => x
  | x :: xs => x ++ ' ' :: joinSpace xs

/-- `shellJoin` (exec.go lines 277-283): quotes every element
independently and concatenates with a single space separator. -/
def shellJoin (args : List GoStr) : GoStr :=
  joinSpace (args.map shellQuote)

/-- A POSIX single-quote-aware field reader, the spec's "POSIX-quote-aware
reader" used to state the round-trip properties of the quoter.  It models
POSIX quote removal and field splitting restricted to the constructs
relevant here: a single-quoted region is literal until the closing quote,
a backslash outside quotes escapes the next character, an unquoted space
separates fields, and every other character is literal (no expansion is
modelled).  The state is the remaining input, whether we are inside a
single-quoted region, the characters of the current field, and whether
the current field has started (so that a quoted empty string yields an
empty field).  `none` signals an unterminated quote or a trailing
backslash. -/
def posixReadAux : List Char → Bool → GoStr → Bool → Option (List GoStr)
  | [], true, _, _ => none
  | [], false, cur, started => some (if started then [cur] else [])
  | c :: rest, true, cur, started =>
    if c = squote then posixReadAux rest false cur started
    else posixReadAux rest true (cur ++ [c]) started
  | c :: rest, false, cur, started =>
    if c = squote then posixReadAux rest true cur true
    else if c = ' ' then
      if started then (posixReadAux rest false [] false).map (cur :: ·)
      else posixReadAux rest false [] false
    else if c = bslash then
      match rest with
      | [] => none
      | e :: rest2 => posixReadAux rest2 false (cur ++ [e]) true
    else posixReadAux rest false (cur ++ [c]) true

/-- Reads a whole string into its list of fields with the POSIX
single-quote-aware reader, starting outside quotes with no field begun. -/
def posixReadFields (s : GoStr) : Option (List GoStr) :=
  posixReadAux s false [] false

/-! ## Mode classification (exec.go lines 144-191) -/

/-- Go `filepath.Base` for slash-separated paths: the empty path gives
".", a path of only separators gives "/", otherwise trailing separators
are removed and the element after the last separator is returned. -/
def filepathBase (p : GoStr) : GoStr :=
  if p.isEmpty then ['.']
  else
    let p1 := (p.reverse.dropWhile (fun c => c == '/')).reverse
    if p1.isEmpty then ['/']
    else (p1.reverse.takeWhile (fun c => c != '/')).reverse

/-- Go `strings.TrimSuffix`: removes the suffix when present, otherwise
returns the string unchanged. -/
def trimSuffix (s suffix : GoStr) : GoStr :=
  if suffix.isSuffixOf s then s.take (s.length - suffix.length) else s

/-- ASCII lowering of one character; models Go `strings.ToLower` on the
ASCII range, which covers every key of the shell table. -/
def toLowerChar (c : Char) : Char :=
  if 'A' ≤ c ∧ c ≤ 'Z' then Char.ofNat (c.toNat + 32) else c

/-- The canonical shell identifier computed by `isJoinMode`
(exec.go lines 181-184): basename of `sh[0]`, then the `.exe` suffix
stripped, then lowercased. -/
def canonicalShellName (s : GoStr) : GoStr :=
  (trimSuffix (filepathBase s) ".exe".data).map toLowerChar

/-- `knownCommandStringShells` (exec.go lines 153-164): the static table
from canonical shell identifier to its command-string flag.  The Go map
has pairwise distinct keys, so an association list with `lookup` is an
exact model. -/
def knownCommandStringShells : List (GoStr × GoStr) :=
  [("sh".data, "-c".data),
   ("bash".data, "-c".data),
   ("zsh".data, "-c".data),
   ("dash".data, "-c".data),
   ("ksh".data, "-c".data),
   ("fish".data, "-c".data),
   ("pwsh".data, "-c".data),
   ("powershell".data, "-c".data)]

/-- `isJoinMode` (exec.go lines 177-191): join mode holds when the spec
has at least two tokens, the canonical name of `sh[0]` is a known
command-string shell, and the last token equals that shell's flag. -/
def isJoinMode (sh : List GoStr) : Bool :=
  if sh.length < 2 then false
  else
    match knownCommandStringShells.lookup (canonicalShellName (sh.headD [])) with
    | none => false
    | some flag => sh.getLastD [] == flag

/-- The two dispatch calling conventions of the spec. -/
inductive DispatchMode
  | SeparateArgs
  | Join
deriving DecidableEq

/-- The spec's `classify`: the dispatch mode derived from a shell spec,
`Join` exactly when `isJoinMode` holds. -/
def classify (sh : List GoStr) : DispatchMode :=
  if isJoinMode sh then DispatchMode.Join else DispatchMode.SeparateArgs

/-! ## The dispatcher `customShHandler` (exec.go lines 223-267) -/

/-- The kinds of `expand.Variable` values of mvdan.cc/sh: a variable
holds a plain string, an indexed array, an associative array, a name
reference, or is unset. -/
inductive VarKind
  | unset
  | str
  | nameRef
  | indexed
  | associative
deriving DecidableEq

/-- An interpreter variable as seen by the handler:`expand.Variable`
restricted to the fields the handler reads (`Exported`, `Kind`, `Str`). -/
structure Variable where
  Exported : Bool
  Kind : VarKind
  Str : GoStr
deriving DecidableEq

/-- The handler context (`interp.HandlerCtx`): the working directory and
the interpreter's variables (name/value pairs in iteration order), plus
nothing the handler does not read. -/
structure HandlerCtx where
  dir : GoStr
  env : List (GoStr × Variable)

/-- The environment projection of the handler (exec.go lines 231-238):
iterate the interpreter variables and keep `NAME=VALUE` exactly for
those exported and of string kind, in iteration order. -/
def projectEnv (env : List (GoStr × Variable)) : List GoStr :=
  (env.filter (fun e => e.2.Exported && e.2.Kind == VarKind.str)).map
    (fun e => e.1 ++ '=' :: e.2.Str)

/-- The subprocess command constructed by the handler (exec.go
lines 250-255): program, argument vector, working directory and
environment. -/
structure Cmd where
  prog : GoStr
  argv : List GoStr
  dir : GoStr
  env : List GoStr
deriving DecidableEq

/-- The extra arguments appended after `sh[1:]` (exec.go lines 240-248):
in join mode the single joined string, otherwise the args unchanged. -/
def handlerExtraArgs (joinMode : Bool) (args : List GoStr) : List GoStr :=
  if joinMode then [shellJoin args] else args

/-- The command built by one invocation of the handler returned by
`customShHandler sh` (exec.go lines 223-255): `joinMode` is computed
once from the spec, the environment is projected from the interpreter
state, and the subprocess runs `sh[0]` with `sh[1:]` followed by the
extra arguments, in the context's directory. -/
def customShHandlerCmd (sh : List GoStr) (args : List GoStr) (hc : HandlerCtx) : Cmd :=
  let joinMode := isJoinMode sh
  let envList := projectEnv hc.env
  let extraArgs := handlerExtraArgs joinMode args
  { prog := sh.headD []
    argv := sh.tail ++ extraArgs
    dir := hc.dir
    env := envList }

/-! ## Exit-status translation (exec.go lines 257-264) -/

/-- Outcome of `cmd.Run()`: `none` is a clean exit; otherwise an
`*exec.ExitError` carrying the process's `ExitCode()` (an `int`, `-1`
for a signal-killed process), or any other launch error. -/
inductive RunError
  | exitError (code : Int)
  | other (msg : GoStr)
deriving DecidableEq

/-- What the handler returns to the calling interpreter: success, the
distinguished `interp.ExitStatus` signal, or the error passed through. -/
inductive HandlerResult
  | ok
  | exitStatus (code : Nat)
  | err (msg : GoStr)
deriving DecidableEq

/-- Go conversion `uint8(i)` of a signed integer: truncation to the low
8 bits, i.e. reduction modulo 256 into `0..255`. -/
def uint8cast (i : Int) : Nat := (i % 256).toNat

/-- The outcome translation of the handler (exec.go lines 257-264): a
nil error is success, an `*exec.ExitError` becomes
`interp.ExitStatus(uint8(code))`, and any other error is returned
unchanged. -/
def translateRunResult : Option RunError → HandlerResult
  | none => HandlerResult.ok
  | some (RunError.exitError code) => HandlerResult.exitStatus (uint8cast code)
  | some (RunError.other msg) => HandlerResult.err msg

/-! ## RunCommand configuration (exec.go lines 20-68) -/

/-- `RunCommandOptions` (exec.go lines 24-34), the fields consumed by
the configuration phase of `RunCommand` (streams are opaque and
omitted). -/
structure RunCommandOptions where
  Command : GoStr
  Dir : GoStr
  Env : List GoStr
  PosixOpts : List GoStr
  BashOpts : List GoStr
  Sh : List GoStr

/-- The error values of `RunCommand`'s configuration phase:
`ErrNilOptions` (exec.go line 21). -/
inductive RunCommandError
  | nilOptions
deriving DecidableEq

/-- Formatting of one POSIX option into interpreter parameters
(exec.go lines 47-54): a one-letter option becomes `-x`, a long option
becomes `-o` followed by its name. -/
def formatPosixOpt (opt : GoStr) : List GoStr :=
  if opt.length = 1 then [('-' :: opt)] else ["-o".data, opt]

/-- The interpreter configuration assembled by `RunCommand` before any
command runs (exec.go lines 37-68): the formatted parameters with the
default `e`, the environment passed to `expand.ListEnviron`, and
whether a custom-shell handler is installed. -/
structure InterpConfig where
  params : List GoStr
  environ : List GoStr
  customSh : Bool
deriving DecidableEq

/-- The configuration phase of `RunCommand` (exec.go lines 37-68): nil
options yield `ErrNilOptions` at once; otherwise `"e"` is appended to
the POSIX options, the options are formatted, and the environment is
the caller's `Env` unless it is empty, in which case it is the
dispatcher process's own environment (`os.Environ()`, the `osEnviron`
parameter).  The custom-shell handler is installed exactly when `Sh` is
non-empty (exec.go lines 193-201). -/
def runCommandConfig (osEnviron : List GoStr) (opts : Option RunCommandOptions) :
    Except RunCommandError InterpConfig :=
  match opts with
  | none => Except.error RunCommandError.nilOptions
  | some o =>
    let posixOpts := o.PosixOpts ++ ["e".data]
    let params := posixOpts.flatMap formatPosixOpt
    let environ := if o.Env.length = 0 then osEnviron else o.Env
    Except.ok { params := params, environ := environ, customSh := !o.Sh.isEmpty }

/-! ## ShArgs YAML unmarshalling (sh.go lines 48-62) -/

/-- The node kinds of go-yaml (`yaml.Kind`). -/
inductive YamlKind
  | document
  | sequence
  | mapping
  | scalar
  | alias
deriving DecidableEq

/-- A YAML node restricted to what `UnmarshalYAML` reads: its kind, its
scalar value, and its children. -/
inductive YamlNode
  | mk (kind : YamlKind) (value : GoStr) (content : List YamlNode)

/-- The kind of a YAML node. -/
def YamlNode.kind : YamlNode → YamlKind
  | YamlNode.mk k _ _ => k

/-- The scalar value of a YAML node. -/
def YamlNode.value : YamlNode → GoStr
  | YamlNode.mk _ v _ => v

/-- The children of a YAML node. -/
def YamlNode.content : YamlNode → List YamlNode
  | YamlNode.mk _ _ c => c

/-- Decoding one sequence item as a string: go-yaml decodes a scalar
item into a string and fails on any other shape. -/
def decodeString (n : YamlNode) : Option GoStr :=
  if n.kind = YamlKind.scalar then some n.value else none

/-- `node.Decode(&args)` for `args []string` on a sequence node: every
item must decode as a string, otherwise the decode fails. -/
def decodeStringList (ns : List YamlNode) : Option (List GoStr) :=
  ns.mapM decodeString

/-- Go `unicode.IsSpace` restricted to ASCII: space, tab, newline,
vertical tab, form feed, carriage return. -/
def goIsSpace (c : Char) : Bool :=
  c == ' ' || c == Char.ofNat 9 || c == Char.ofNat 10 ||
    c == Char.ofNat 11 || c == Char.ofNat 12 || c == Char.ofNat 13

/-- Accumulator loop of `strings.Fields`: split around runs of
whitespace, producing no empty fields. -/
def fieldsAux : List Char → GoStr → List GoStr
  | [], cur => if cur.isEmpty then [] else [cur]
  | c :: rest, cur =>
    if goIsSpace c then
      if cur.isEmpty then fieldsAux rest []
      else cur :: fieldsAux rest []
    else fieldsAux rest (cur ++ [c])

/-- Go `strings.Fields`: the whitespace-separated fields of a string. -/
def fields (s : GoStr) : List GoStr := fieldsAux s []

/-- The decode-time error of `UnmarshalYAML`
(`errors.NewTaskfileDecodeError`, sh.go lines 56 and 61). -/
inductive DecodeError
  | taskfileDecodeError
deriving DecidableEq

/-- `ShArgs.UnmarshalYAML` (sh.go lines 48-62): a scalar node is split
on whitespace, a sequence node is decoded as a string list verbatim,
and every other node kind is rejected with a decode error. -/
def unmarshalShArgs (node : YamlNode) : Except DecodeError (List GoStr) :=
  match node.kind with
  | YamlKind.scalar => Except.ok (fields node.value)
  | YamlKind.sequence =>
    match decodeStringList node.content with
    | some args => Except.ok args
    | none => Except.error DecodeError.taskfileDecodeError
  | _ => Except.error DecodeError.taskfileDecodeError

/-! ## Helper lemmas for the quoter round-trip -/

lemma bslash_ne_squote : bslash ≠ squote := by decide

lemma bslash_ne_space : bslash ≠ ' ' := by decide

lemma space_ne_squote : (' ' : Char) ≠ squote := by decide

lemma readAux_open (l : List Char) (cur : GoStr) (b : Bool) :
    posixReadAux (squote :: l) false cur b = posixReadAux l true cur true := by
  cases l <;> simp [posixReadAux]

lemma readAux_close (l : List Char) (cur : GoStr) (b : Bool) :
    posixReadAux (squote :: l) true cur b = posixReadAux l false cur b := by
  simp [posixReadAux]

lemma readAux_inQuote (c : Char) (hc : c ≠ squote) (l : List Char) (cur : GoStr) (b : Bool) :
    posixReadAux (c :: l) true cur b = posixReadAux l true (cur ++ [c]) b := by
  simp [posixReadAux, hc]

lemma readAux_backslash (e : Char) (l : List Char) (cur : GoStr) (b : Bool) :
    posixReadAux (bslash :: e :: l) false cur b
      = posixReadAux l false (cur ++ [e]) true := by
  simp [posixReadAux, bslash_ne_squote, bslash_ne_space]

lemma readAux_space_started (l : List Char) (cur : GoStr) :
    posixReadAux (' ' :: l) false cur true
      = (posixReadAux l false [] false).map (cur :: ·) := by
  cases l <;> simp [posixReadAux, space_ne_squote]

/-- Reading the escaped body of a quoted argument followed by the closing
quote consumes exactly the argument: from the inside-quotes state the
reader appends `s` to the current field and continues after the closing
quote, whatever follows. -/
lemma posixReadAux_quoted (s : GoStr) (cur : GoStr) (suffix : List Char) :
    posixReadAux
      (replaceAllChar s squote [squote, bslash, squote, squote] ++ squote :: suffix)
      true cur true
      = posixReadAux suffix false (cur ++ s) true := by
  induction s generalizing cur with
  | nil =>
    have h0 : replaceAllChar [] squote [squote, bslash, squote, squote] = [] := rfl
    rw [h0, List.nil_append, readAux_close, List.append_nil]
  | cons c s ih =>
    by_cases hc : c = squote
    · subst hc
      have h1 : replaceAllChar (squote :: s) squote [squote, bslash, squote, squote]
          = squote :: bslash :: squote :: squote
            :: replaceAllChar s squote [squote, bslash, squote, squote] := by
        simp [replaceAllChar]
      rw [h1]
      simp only [List.cons_append]
      rw [readAux_close, readAux_backslash, readAux_open, ih (cur ++ [squote])]
      simp
    · have h1 : replaceAllChar (c :: s) squote [squote, bslash, squote, squote]
          = c :: replaceAllChar s squote [squote, bslash, squote, squote] := by
        simp [replaceAllChar, hc]
      rw [h1]
      simp only [List.cons_append]
      rw [readAux_inQuote c hc, ih (cur ++ [c])]
      simp

/-- Reading a quoted argument from the initial state of a field consumes
the whole quoted form and yields the original argument as the current
(started) field. -/
lemma posixReadAux_shellQuote (s : GoStr) (suffix : List Char) :
    posixReadAux (shellQuote s ++ suffix) false [] false
      = posixReadAux suffix false s true := by
  have h1 : shellQuote s ++ suffix
      = squote :: (replaceAllChar s squote [squote, bslash, squote, squote]
          ++ squote :: suffix) := by
    simp [shellQuote]
  rw [h1, readAux_open, posixReadAux_quoted s [] suffix, List.nil_append]

lemma posixReadAux_shellQuote_nil (s : GoStr) :
    posixReadAux (shellQuote s) false [] false = some [s] := by
  have h := posixReadAux_shellQuote s []
  rw [List.append_nil] at h
  rw [h]
  rfl

/-- Re-splitting a joined argument list recovers exactly the original
arguments. -/
lemma posixReadFields_shellJoin (args : List GoStr) :
    posixReadFields (shellJoin args) = some args := by
  induction args with
  | nil => rfl
  | cons a rest ih =>
    cases rest with
    | nil =>
      show posixReadAux (shellJoin [a]) false [] false = some [a]
      have h1 : shellJoin [a] = shellQuote a := rfl
      rw [h1, posixReadAux_shellQuote_nil]
    | cons b rest2 =>
      show posixReadAux (shellJoin (a :: b :: rest2)) false [] false
        = some (a :: b :: rest2)
      have h1 : shellJoin (a :: b :: rest2)
          = shellQuote a ++ ' ' :: shellJoin (b :: rest2) := by
        simp [shellJoin, joinSpace]
      rw [h1, posixReadAux_shellQuote a (' ' :: shellJoin (b :: rest2)),
        readAux_space_started]
      rw [show posixReadAux (shellJoin (b :: rest2)) false [] false
            = posixReadFields (shellJoin (b :: rest2)) from rfl, ih]
      rfl

/-! ## Classification lemmas -/

lemma classify_eq_join_iff (sh : List GoStr) :
    classify sh = DispatchMode.Join ↔ isJoinMode sh = true := by
  unfold classify
  cases h : isJoinMode sh <;> simp

lemma classify_eq_sep_iff (sh : List GoStr) :
    classify sh = DispatchMode.SeparateArgs ↔ isJoinMode sh = false := by
  unfold classify
  cases h : isJoinMode sh <;> simp

lemma isJoinMode_iff_table (sh : List GoStr) (hlen : 2 ≤ sh.length) :
    isJoinMode sh = true ↔
      ∃ flag,
        knownCommandStringShells.lookup (canonicalShellName (sh.headD [])) = some flag ∧
        sh.getLastD [] = flag := by
  unfold isJoinMode
  rw [if_neg (by omega : ¬sh.length < 2)]
  cases h : knownCommandStringShells.lookup (canonicalShellName (sh.headD [])) with
  | none => simp
  | some flag => simp [beq_iff_eq]

/-- C1: mode classification satisfies the spec's table-policy truth
table: `bash -c` is Join; `bash -x`, `bash -c extra`, `myshell -c`,
`docker run --rm alpine`, the empty spec and a lone `bash` are
SeparateArgs; `pwsh -nop -c` is Join. -/
theorem classify_truth_table :
    classify ["bash".data, "-c".data] = DispatchMode.Join ∧
    classify ["bash".data, "-x".data] = DispatchMode.SeparateArgs ∧
    classify ["bash".data, "-c".data, "extra".data] = DispatchMode.SeparateArgs ∧
    classify ["pwsh".data, "-nop".data, "-c".data] = DispatchMode.Join ∧
    classify ["myshell".data, "-c".data] = DispatchMode.SeparateArgs ∧
    classify ["docker".data, "run".data, "--rm".data, "alpine".data]
      = DispatchMode.SeparateArgs ∧
    classify [] = DispatchMode.SeparateArgs ∧
    classify ["bash".data] = DispatchMode.SeparateArgs := by
  decide

/-- C2: for a spec with at least two tokens, classification yields Join
exactly when the canonical (basename, `.exe`-stripped, lowercased) form
of the first token is a key of the shell table and the last token equals
that shell's registered flag; a spec with fewer than two tokens always
yields SeparateArgs.  The canonical form covers full paths, letter case
and the `.exe` suffix. -/
theorem classify_table_policy (sh : List GoStr) :
    (2 ≤ sh.length →
      (classify sh = DispatchMode.Join ↔
        ∃ flag,
          knownCommandStringShells.lookup (canonicalShellName (sh.headD [])) = some flag ∧
          sh.getLastD [] = flag)) ∧
    (sh.length < 2 → classify sh = DispatchMode.SeparateArgs) := by
  constructor
  · intro hlen
    rw [classify_eq_join_iff]
    exact isJoinMode_iff_table sh hlen
  · intro hlen
    rw [classify_eq_sep_iff]
    unfold isJoinMode
    rw [if_pos hlen]

/-- Witness for C2: the iff instantiated at `/bin/BASH.exe -c` (a full
path, upper case, with the `.exe` suffix) and the fail-closed clause at
the one-token spec `bash`. -/
theorem classify_table_policy_witness :
    (classify ["/bin/BASH.exe".data, "-c".data] = DispatchMode.Join ↔
      ∃ flag,
        knownCommandStringShells.lookup
          (canonicalShellName ((["/bin/BASH.exe".data, "-c".data] : List GoStr).headD []))
          = some flag ∧
        (["/bin/BASH.exe".data, "-c".data] : List GoStr).getLastD [] = flag) ∧
    classify ["bash".data] = DispatchMode.SeparateArgs :=
  ⟨(classify_table_policy ["/bin/BASH.exe".data, "-c".data]).1 (by decide),
   (classify_table_policy ["bash".data]).2 (by decide)⟩

/-- C3: the dispatcher runs program `spec[0]` with the OS argument
vector `spec[1:]` followed by the args unchanged in separate-args mode
or by the single joined string in join mode; concretely, spec
`docker run --rm alpine` with args `echo hi` gives the five separate
arguments `run --rm alpine echo hi`, and spec `bash -c` with args
`echo` and `hello world` gives `-c` followed by the one string
`'echo' 'hello world'`. -/
theorem dispatch_argv_build (sh args : List GoStr) (hc : HandlerCtx) :
    ((customShHandlerCmd sh args hc).prog = sh.headD []) ∧
    (classify sh = DispatchMode.SeparateArgs →
      (customShHandlerCmd sh args hc).argv = sh.tail ++ args) ∧
    (classify sh = DispatchMode.Join →
      (customShHandlerCmd sh args hc).argv = sh.tail ++ [shellJoin args]) ∧
    ((customShHandlerCmd ["docker".data, "run".data, "--rm".data, "alpine".data]
        ["echo".data, "hi".data] hc).argv
      = ["run".data, "--rm".data, "alpine".data, "echo".data, "hi".data]) ∧
    ((customShHandlerCmd ["bash".data, "-c".data]
        ["echo".data, "hello world".data] hc).argv
      = ["-c".data,
         [squote] ++ "echo".data ++ [squote, ' ', squote]
           ++ "hello world".data ++ [squote]]) := by
  refine ⟨rfl, ?_, ?_, rfl, rfl⟩
  · intro h
    rw [classify_eq_sep_iff] at h
    simp [customShHandlerCmd, handlerExtraArgs, h]
  · intro h
    rw [classify_eq_join_iff] at h
    simp [customShHandlerCmd, handlerExtraArgs, h]

/-- Witness for C3: the separate-args and join clauses instantiated at
the spec's two end-to-end examples. -/
theorem dispatch_argv_build_witness :
    ((customShHandlerCmd ["docker".data, "run".data, "--rm".data, "alpine".data]
        ["echo".data, "hi".data] ⟨[], []⟩).argv
      = (["docker".data, "run".data, "--rm".data, "alpine".data] : List GoStr).tail
          ++ ["echo".data, "hi".data]) ∧
    ((customShHandlerCmd ["bash".data, "-c".data]
        ["echo".data, "hello world".data] ⟨[], []⟩).argv
      = (["bash".data, "-c".data] : List GoStr).tail
          ++ [shellJoin ["echo".data, "hello world".data]]) :=
  ⟨(dispatch_argv_build ["docker".data, "run".data, "--rm".data, "alpine".data]
      ["echo".data, "hi".data] ⟨[], []⟩).2.1 (by decide),
   (dispatch_argv_build ["bash".data, "-c".data]
      ["echo".data, "hello world".data] ⟨[], []⟩).2.2.1 (by decide)⟩

/-- C4: for every string `s`, `shellQuote s` is a single quote, then `s`
with every embedded single quote replaced by the four characters
close-quote backslash quote open-quote, then a closing quote; the empty
string quotes to two quote characters; and re-parsing `shellQuote s`
with the POSIX single-quote-aware reader yields exactly `s`, also when
`s` contains a literal single quote or the metacharacters `$`, `&`,
`|`. -/
theorem shellQuote_roundtrip (s : GoStr) :
    (shellQuote s
      = [squote] ++ replaceAllChar s squote [squote, bslash, squote, squote] ++ [squote]) ∧
    (shellQuote [] = [squote, squote]) ∧
    (posixReadFields (shellQuote s) = some [s]) ∧
    (posixReadFields (shellQuote ("a".data ++ squote :: "b$&|".data))
      = some [("a".data ++ squote :: "b$&|".data)]) :=
  ⟨rfl, rfl, posixReadAux_shellQuote_nil s,
    posixReadAux_shellQuote_nil ("a".data ++ squote :: "b$&|".data)⟩

/-- C5: `shellJoin []` is the empty string, `shellJoin [a]` equals
`shellQuote a`, `shellJoin` quotes every element independently and
concatenates in the original order with single spaces, and re-splitting
its result with the POSIX reader recovers the same arguments, count and
order included. -/
theorem shellJoin_roundtrip :
    (shellJoin [] = []) ∧
    (∀ a, shellJoin [a] = shellQuote a) ∧
    (∀ args, shellJoin args = joinSpace (args.map shellQuote)) ∧
    (∀ args, posixReadFields (shellJoin args) = some args) :=
  ⟨rfl, fun _ => rfl, fun _ => rfl, posixReadFields_shellJoin⟩

/-- C6: a clean exit yields success; an exit with code N in 0..255 is
reported as the distinguished exit-status signal carrying exactly N,
never as a generic error; and a launch failure is surfaced as a generic
execution error, distinct from any exit-status signal. -/
theorem exit_status_contract :
    (translateRunResult none = HandlerResult.ok) ∧
    (∀ n : Nat, n ≤ 255 →
      translateRunResult (some (RunError.exitError (n : Int)))
        = HandlerResult.exitStatus n) ∧
    (∀ msg, translateRunResult (some (RunError.other msg)) = HandlerResult.err msg) ∧
    (∀ n msg, HandlerResult.exitStatus n ≠ HandlerResult.err msg) := by
  refine ⟨rfl, ?_, fun _ => rfl, ?_⟩
  · intro n hn
    simp only [translateRunResult, uint8cast, HandlerResult.exitStatus.injEq]
    omega
  · intro n msg h
    exact HandlerResult.noConfusion h

/-- Witness for C6: a subprocess exiting with code 3 is reported as exit
status 3. -/
theorem exit_status_contract_witness :
    (3 : Nat) ≤ 255 ∧
    translateRunResult (some (RunError.exitError (3 : Int)))
      = HandlerResult.exitStatus 3 :=
  ⟨by decide, exit_status_contract.2.1 3 (by decide)⟩

/-- C7: the environment handed to the subprocess is exactly the
`NAME=VALUE` projection of the variables that are exported and hold a
plain string value: nothing else (in particular nothing from the
dispatcher process's own environment) is added; an exported string
variable `FOO=bar` appears as `FOO=bar`, while an unexported variable or
a non-string value is excluded. -/
theorem env_projection (sh args : List GoStr) (hc : HandlerCtx) :
    ((customShHandlerCmd sh args hc).env = projectEnv hc.env) ∧
    (∀ x, x ∈ projectEnv hc.env ↔
      ∃ e ∈ hc.env,
        e.2.Exported = true ∧ e.2.Kind = VarKind.str ∧ x = e.1 ++ '=' :: e.2.Str) ∧
    (projectEnv [("FOO".data, ⟨true, VarKind.str, "bar".data⟩)] = ["FOO=bar".data]) ∧
    (projectEnv [("FOO".data, ⟨false, VarKind.str, "bar".data⟩)] = []) ∧
    (projectEnv [("FOO".data, ⟨true, VarKind.indexed, "bar".data⟩)] = []) := by
  refine ⟨rfl, ?_, by decide, by decide, by decide⟩
  intro x
  simp only [projectEnv, List.mem_map, List.mem_filter, Bool.and_eq_true, beq_iff_eq]
  constructor
  · rintro ⟨e, ⟨he, hex, hk⟩, hfx⟩
    exact ⟨e, he, hex, hk, hfx.symm⟩
  · rintro ⟨e, he, hex, hk, hx⟩
    exact ⟨e, ⟨he, hex, hk⟩, hx.symm⟩

/-- C9: an exit code outside 0..255 — notably the -1 Go reports for a
signal-killed process — is reported reduced modulo 256, because the code
is cast to an unsigned 8-bit integer before being wrapped in the
exit-status signal: -1 is reported as exit status 255. -/
theorem exit_code_mod256 :
    (translateRunResult (some (RunError.exitError (-1)))
      = HandlerResult.exitStatus 255) ∧
    (∀ i : Int, translateRunResult (some (RunError.exitError i))
      = HandlerResult.exitStatus ((i % 256).toNat)) :=
  ⟨by decide, fun _ => rfl⟩

lemma fieldsAux_no_space (s : List Char) (cur : GoStr)
    (hcur : ∀ c ∈ cur, goIsSpace c = false) :
    ∀ t ∈ fieldsAux s cur, ∀ c ∈ t, goIsSpace c = false := by
  induction s generalizing cur with
  | nil =>
    intro t ht
    by_cases h : cur.isEmpty
    · simp [fieldsAux, h] at ht
    · simp [fieldsAux, h] at ht
      subst ht
      exact hcur
  | cons c rest ih =>
    intro t ht
    by_cases hsp : goIsSpace c
    · by_cases h : cur.isEmpty
      · simp [fieldsAux, hsp, h] at ht
        exact ih [] (by intro x hx; cases hx) t ht
      · simp [fieldsAux, hsp, h] at ht
        cases ht with
        | inl h1 =>
          subst h1
          exact hcur
        | inr h1 => exact ih [] (by intro x hx; cases hx) t h1
    · simp [fieldsAux, hsp] at ht
      refine ih (cur ++ [c]) ?_ t ht
      intro x hx
      rcases List.mem_append.mp hx with h1 | h1
      · exact hcur x h1
      · rcases List.mem_singleton.mp h1 with rfl
        simpa using hsp

lemma fields_no_space (s : GoStr) :
    ∀ t ∈ fields s, ∀ c ∈ t, goIsSpace c = false := by
  exact fieldsAux_no_space s [] (by intro x hx; cases hx)

/-- C8: parsing the `sh` configuration value accepts exactly two node
shapes: a scalar is split on whitespace into the token list, and a
sequence of strings is taken verbatim as the ordered token list (so a
token containing a space is possible only in list form, since tokens
produced from a scalar never contain whitespace); every other node shape
is rejected with a decode error at parse time. -/
theorem sh_unmarshal_shapes (node : YamlNode) :
    (node.kind = YamlKind.scalar →
      unmarshalShArgs node = Except.ok (fields node.value)) ∧
    (node.kind = YamlKind.sequence → ∀ args,
      decodeStringList node.content = some args →
        unmarshalShArgs node = Except.ok args) ∧
    (node.kind = YamlKind.sequence → decodeStringList node.content = none →
      unmarshalShArgs node = Except.error DecodeError.taskfileDecodeError) ∧
    (node.kind ≠ YamlKind.scalar → node.kind ≠ YamlKind.sequence →
      unmarshalShArgs node = Except.error DecodeError.taskfileDecodeError) ∧
    (unmarshalShArgs
        (YamlNode.mk YamlKind.sequence [] [YamlNode.mk YamlKind.scalar "a b".data []])
      = Except.ok ["a b".data]) ∧
    (∀ s, ∀ t ∈ fields s, ∀ c ∈ t, goIsSpace c = false) := by
  refine ⟨?_, ?_, ?_, ?_, rfl, fields_no_space⟩
  · intro hk
    cases node with
    | mk k v cont =>
      cases k <;> simp_all [unmarshalShArgs, YamlNode.kind]
  · intro hk args hargs
    cases node with
    | mk k v cont =>
      cases k <;> simp_all [unmarshalShArgs, YamlNode.kind, YamlNode.content]
  · intro hk hargs
    cases node with
    | mk k v cont =>
      cases k <;> simp_all [unmarshalShArgs, YamlNode.kind, YamlNode.content]
  · intro h1 h2
    cases node with
    | mk k v cont =>
      cases k <;> simp_all [unmarshalShArgs, YamlNode.kind]

/-- Witness for C8: a scalar node splits on whitespace, and a mapping
node is rejected with a decode error. -/
theorem sh_unmarshal_shapes_witness :
    (unmarshalShArgs (YamlNode.mk YamlKind.scalar "bash -c".data [])
      = Except.ok (fields "bash -c".data)) ∧
    (fields "bash -c".data = ["bash".data, "-c".data]) ∧
    (unmarshalShArgs (YamlNode.mk YamlKind.mapping [] [])
      = Except.error DecodeError.taskfileDecodeError) :=
  ⟨(sh_unmarshal_shapes (YamlNode.mk YamlKind.scalar "bash -c".data [])).1 rfl,
   by decide,
   (sh_unmarshal_shapes (YamlNode.mk YamlKind.mapping [] [])).2.2.2.1
     (by decide) (by decide)⟩

/-- C10: a nil options pointer makes RunCommand return ErrNilOptions at
once; with non-nil options whose Env is empty the interpreter
environment is silently initialized from the dispatcher process's own
environment, so a caller cannot obtain a truly empty environment; a
non-empty Env is passed through unchanged. -/
theorem runCommand_env_default (osEnviron : List GoStr) (o : RunCommandOptions) :
    (runCommandConfig osEnviron none = Except.error RunCommandError.nilOptions) ∧
    (o.Env = [] → runCommandConfig osEnviron (some o)
      = Except.ok
          { params := (o.PosixOpts ++ ["e".data]).flatMap formatPosixOpt
            environ := osEnviron
            customSh := !o.Sh.isEmpty }) ∧
    (o.Env ≠ [] → runCommandConfig osEnviron (some o)
      = Except.ok
          { params := (o.PosixOpts ++ ["e".data]).flatMap formatPosixOpt
            environ := o.Env
            customSh := !o.Sh.isEmpty }) ∧
    (osEnviron ≠ [] → ∀ cfg, runCommandConfig osEnviron (some o) = Except.ok cfg →
      cfg.environ ≠ []) := by
  refine ⟨rfl, ?_, ?_, ?_⟩
  · intro h
    simp [runCommandConfig, h]
  · intro h
    simp [runCommandConfig, List.length_eq_zero, h]
  · intro hos cfg hcfg
    by_cases h : o.Env = []
    · simp [runCommandConfig, h] at hcfg
      rw [← hcfg]
      exact hos
    · simp [runCommandConfig, List.length_eq_zero, h] at hcfg
      rw [← hcfg]
      exact h

/-- Witness for C10: with empty Env the interpreter environment is the
process environment; with a one-entry Env it is passed through. -/
theorem runCommand_env_default_witness :
    (runCommandConfig ["A=1".data] (some ⟨[], [], [], [], [], []⟩)
      = Except.ok { params := ["-e".data], environ := ["A=1".data], customSh := false }) ∧
    (runCommandConfig ["A=1".data] (some ⟨[], [], ["B=2".data], [], [], []⟩)
      = Except.ok { params := ["-e".data], environ := ["B=2".data], customSh := false }) :=
  ⟨((runCommand_env_default ["A=1".data] ⟨[], [], [], [], [], []⟩).2.1 rfl).trans rfl,
   ((runCommand_env_default ["A=1".data] ⟨[], [], ["B=2".data], [], [], []⟩).2.2.1
      (by decide)).trans rfl⟩

end Spec2Proof
